import Mathlib

/-!
Verification development for the bank-statement transaction extraction engine
(`match_invoices/bank_statement_processor.py`).

The Python code is shallowly embedded: strings are `List Char`, floating-point
amounts are `ℚ`, pandas missing values (NaN / NaT) are `none`, raised
exceptions are `Except` errors.  The fixed regular expressions of the pattern
catalog are embedded as executable prefix matchers together with a left-to-right
scanner reproducing `re.finditer` semantics (leftmost, non-overlapping).
-/

namespace BankStatement

/-- ASCII digit class, modelling the regex class `\d` on statement text. -/
def isDigit (c : Char) : Bool := c.isDigit

/-- Whitespace class, modelling Python `\s` and `str.strip` on statement text. -/
def isWs (c : Char) : Bool :=
  c = ' ' || c = '\t' || c = '\n' || c = '\r' || c = '\x0b' || c = '\x0c'

/-- Python `str.strip`: drop leading and trailing whitespace. -/
def stripWs (cs : List Char) : List Char :=
  ((cs.dropWhile isWs).reverse.dropWhile isWs).reverse

/-- Python `str.upper`, covering ASCII plus the accented letters appearing in
the indicator lexicon and Portuguese statement text. -/
def toUpperPT (c : Char) : Char :=
  if c = 'á' then 'Á' else if c = 'à' then 'À' else if c = 'â' then 'Â'
  else if c = 'ã' then 'Ã' else if c = 'é' then 'É' else if c = 'ê' then 'Ê'
  else if c = 'í' then 'Í' else if c = 'ó' then 'Ó' else if c = 'ô' then 'Ô'
  else if c = 'õ' then 'Õ' else if c = 'ú' then 'Ú' else if c = 'ç' then 'Ç'
  else c.toUpper

/-- Python `str.lower`, covering ASCII plus the accented letters appearing in
column headers. -/
def toLowerPT (c : Char) : Char :=
  if c = 'Á' then 'á' else if c = 'À' then 'à' else if c = 'Â' then 'â'
  else if c = 'Ã' then 'ã' else if c = 'É' then 'é' else if c = 'Ê' then 'ê'
  else if c = 'Í' then 'í' else if c = 'Ó' then 'ó' else if c = 'Ô' then 'ô'
  else if c = 'Õ' then 'õ' else if c = 'Ú' then 'ú' else if c = 'Ç' then 'ç'
  else c.toLower

/-- Boolean prefix test on character lists. -/
def isPrefixOfB : List Char → List Char → Bool
  | [], _ => true
  | _ :: _, [] => false
  | a :: as, b :: bs => a = b && isPrefixOfB as bs

/-- Python `needle in hay` substring containment (true for the empty needle). -/
def isSubstr (needle : List Char) : List Char → Bool
  | [] => needle.isEmpty
  | c :: rest => isPrefixOfB needle (c :: rest) || isSubstr needle rest

/-- Numeric value of a digit string. -/
def digitsToNat (ds : List Char) : Nat :=
  ds.foldl (fun acc c => acc * 10 + (c.toNat - '0'.toNat)) 0

/-! ## Date patterns of the pattern catalog

The catalog lists, in precedence order:
`\d{2}/\d{2}/\d{4}`, `\d{2}-\d{2}-\d{4}`, `\d{4}-\d{2}-\d{2}`.
Each matcher below attempts the pattern as a prefix of its argument. -/

/-- Prefix match of `\d{2}/\d{2}/\d{4}`. -/
def matchP1At : List Char → Option (List Char)
  | a :: b :: '/' :: c :: d :: '/' :: e :: f :: g :: h :: _ =>
    if isDigit a && isDigit b && isDigit c && isDigit d &&
       isDigit e && isDigit f && isDigit g && isDigit h then
      some [a, b, '/', c, d, '/', e, f, g, h]
    else none
  | _ => none

/-- Prefix match of `\d{2}-\d{2}-\d{4}`. -/
def matchP2At : List Char → Option (List Char)
  | a :: b :: '-' :: c :: d :: '-' :: e :: f :: g :: h :: _ =>
    if isDigit a && isDigit b && isDigit c && isDigit d &&
       isDigit e && isDigit f && isDigit g && isDigit h then
      some [a, b, '-', c, d, '-', e, f, g, h]
    else none
  | _ => none

/-- Prefix match of `\d{4}-\d{2}-\d{2}`. -/
def matchP3At : List Char → Option (List Char)
  | a :: b :: c :: d :: '-' :: e :: f :: '-' :: g :: h :: _ =>
    if isDigit a && isDigit b && isDigit c && isDigit d &&
       isDigit e && isDigit f && isDigit g && isDigit h then
      some [a, b, c, d, '-', e, f, '-', g, h]
    else none
  | _ => none

/-- First match of a prefix matcher anywhere in the line, scanning start
positions left to right (the first match produced by `re.finditer`). -/
def firstMatch (m : List Char → Option (List Char)) : List Char → Option (List Char)
  | [] => none
  | c :: rest =>
    match m (c :: rest) with
    | some r => some r
    | none => firstMatch m rest

/-- The catalog's date patterns in precedence order. -/
def date_patterns : List (List Char → Option (List Char)) :=
  [matchP1At, matchP2At, matchP3At]

/-- First pattern (in catalog order) with a match in the line wins; within a
pattern, the first match in the line is taken.  Mirrors the nested loops over
`date_patterns` and `re.finditer` with immediate `break`. -/
def firstPatternMatch (ps : List (List Char → Option (List Char)))
    (line : List Char) : Option (List Char) :=
  match ps with
  | [] => none
  | p :: rest =>
    match firstMatch p line with
    | some r => some r
    | none => firstPatternMatch rest line

/-- Date detected in a line (the first date-pattern match), if any. -/
def findDate (line : List Char) : Option (List Char) :=
  firstPatternMatch date_patterns line

/-! ## Amount patterns of the pattern catalog

The catalog lists, in precedence order:
`-?\d+[\.,]\d{2}`, `-?€\s*\d+[\.,]\d{2}`, `-?\d{1,3}(?:\.\d{3})*,\d{2}`.
The matchers below realize these regexes at a fixed start position; greedy
quantifier backtracking reduces to the deterministic forms implemented here
because a digit can never double as a separator. -/

/-- Prefix match of `\d+[\.,]\d{2}` (sign handled by the caller). -/
def matchA1Core (cs : List Char) : Option (List Char) :=
  let run := cs.takeWhile isDigit
  if run.isEmpty then none
  else
    match cs.drop run.length with
    | sep :: d1 :: d2 :: _ =>
      if (sep = '.' || sep = ',') && isDigit d1 && isDigit d2 then
        some (run ++ [sep, d1, d2])
      else none
    | _ => none

/-- Prefix match of `-?\d+[\.,]\d{2}`. -/
def matchA1At (cs : List Char) : Option (List Char) :=
  match cs with
  | '-' :: rest => (matchA1Core rest).map (fun m => '-' :: m)
  | _ => matchA1Core cs

/-- Prefix match of `-?€\s*\d+[\.,]\d{2}`. -/
def matchA2At (cs : List Char) : Option (List Char) :=
  let core := fun (t : List Char) =>
    match t with
    | '€' :: rest =>
      let sp := rest.takeWhile isWs
      (matchA1Core (rest.drop sp.length)).map (fun m => '€' :: (sp ++ m))
    | _ => none
  match cs with
  | '-' :: rest => (core rest).map (fun m => '-' :: m)
  | _ => core cs

/-- Maximal chain of `\.\d{3}` groups at the head of the list. -/
def groupChain : List Char → List Char
  | '.' :: d1 :: d2 :: d3 :: rest =>
    if isDigit d1 && isDigit d2 && isDigit d3 then
      '.' :: d1 :: d2 :: d3 :: groupChain rest
    else []
  | _ => []

/-- Prefix match of `\d{1,3}(?:\.\d{3})*,\d{2}` (sign handled by the caller). -/
def matchA3Core (cs : List Char) : Option (List Char) :=
  let run := cs.takeWhile isDigit
  if run.isEmpty || decide (3 < run.length) then none
  else
    let rest := cs.drop run.length
    let gs := groupChain rest
    match rest.drop gs.length with
    | ',' :: d1 :: d2 :: _ =>
      if isDigit d1 && isDigit d2 then some (run ++ gs ++ [',', d1, d2]) else none
    | _ => none

/-- Prefix match of `-?\d{1,3}(?:\.\d{3})*,\d{2}`. -/
def matchA3At (cs : List Char) : Option (List Char) :=
  match cs with
  | '-' :: rest => (matchA3Core rest).map (fun m => '-' :: m)
  | _ => matchA3Core cs

/-- All matches of a prefix matcher in the line, leftmost and non-overlapping
(`re.finditer`); the fuel argument bounds the scan by the line length. -/
def allMatchesFuel (m : List Char → Option (List Char)) :
    Nat → List Char → List (List Char)
  | 0, _ => []
  | _ + 1, [] => []
  | fuel + 1, c :: rest =>
    match m (c :: rest) with
    | some r => r :: allMatchesFuel m fuel ((c :: rest).drop r.length)
    | none => allMatchesFuel m fuel rest

/-- All matches of a prefix matcher in the line. -/
def allMatches (m : List Char → Option (List Char)) (cs : List Char) :
    List (List Char) :=
  allMatchesFuel m cs.length cs

/-- The catalog's amount patterns in precedence order. -/
def amount_patterns : List (List Char → Option (List Char)) :=
  [matchA1At, matchA2At, matchA3At]

/-- Amount clean-up:
`amount.replace('€','').replace(' ','').replace('.','').replace(',', '.')`. -/
def cleanupAmount (cs : List Char) : List Char :=
  (cs.filter (fun c => !(c = '€' || c = ' ' || c = '.'))).map
    (fun c => if c = ',' then '.' else c)

/-- Model of Python `float` on the strings reachable from amount clean-up:
optional surrounding whitespace, optional sign, then digits with at most one
decimal point; anything else raises (`none`). -/
def parseFloat (cs : List Char) : Option ℚ :=
  let core := fun (t : List Char) =>
    let ip := t.takeWhile isDigit
    match t.drop ip.length with
    | [] => if ip.isEmpty then none else some ((digitsToNat ip : ℚ))
    | '.' :: fp =>
      if fp.all isDigit && !(ip.isEmpty && fp.isEmpty) then
        some ((digitsToNat ip : ℚ) + (digitsToNat fp : ℚ) / (10 : ℚ) ^ fp.length)
      else none
    | _ => none
  match stripWs cs with
  | '-' :: t => (core t).map Neg.neg
  | '+' :: t => core t
  | t => core t

/-- First match in the list whose cleaned-up text parses as a float (the inner
`for match in matches` loop with its `try float ... break`). -/
def firstParseable : List (List Char) → Option ℚ
  | [] => none
  | m :: rest =>
    match parseFloat (cleanupAmount m) with
    | some q => some q
    | none => firstParseable rest

/-- The outer loop over `amount_patterns`, stopping at the first pattern that
yields a parseable match. -/
def extractAmountGo : List (List Char → Option (List Char)) → List Char → Option ℚ
  | [], _ => none
  | p :: rest, line =>
    match firstParseable (allMatches p line) with
    | some q => some q
    | none => extractAmountGo rest line

/-- Amount extracted from a line by the text parser, if any. -/
def extractAmount (line : List Char) : Option ℚ :=
  extractAmountGo amount_patterns line

/-! ## Description extraction and classification -/

/-- `re.sub(pattern, '', s)`: delete every leftmost non-overlapping match; the
fuel argument bounds the scan by the string length. -/
def subAllFuel (m : List Char → Option (List Char)) :
    Nat → List Char → List Char
  | 0, cs => cs
  | _ + 1, [] => []
  | fuel + 1, c :: rest =>
    match m (c :: rest) with
    | some r => subAllFuel m fuel ((c :: rest).drop r.length)
    | none => c :: subAllFuel m fuel rest

/-- `re.sub(pattern, '', s)` over a whole string. -/
def subAll (m : List Char → Option (List Char)) (cs : List Char) : List Char :=
  subAllFuel m cs.length cs

/-- `re.sub(r'\s+', ' ', s)`: collapse each whitespace run to a single space
(a whitespace character followed by another whitespace character is dropped;
the last of a run becomes a space). -/
def collapseWs : List Char → List Char
  | [] => []
  | [c] => if isWs c then [' '] else [c]
  | c1 :: c2 :: rest =>
    if isWs c1 && isWs c2 then collapseWs (c2 :: rest)
    else (if isWs c1 then ' ' else c1) :: collapseWs (c2 :: rest)

/-- Description of a transaction line: the line with every date-pattern and
amount-pattern match deleted, whitespace collapsed, then stripped. -/
def extractDescription (line : List Char) : List Char :=
  stripWs (collapseWs
    ((date_patterns ++ amount_patterns).foldl (fun d p => subAll p d) line))

/-- The debit keyword set of the indicator lexicon. -/
def debit_indicators : List (List Char) :=
  ["DB".toList, "DÉBITO".toList, "DEBITO".toList, "PAGAMENTO".toList,
   "COMPRA".toList, "LEVANTAMENTO".toList]

/-- The credit keyword set of the indicator lexicon. -/
def credit_indicators : List (List Char) :=
  ["CR".toList, "CRÉDITO".toList, "CREDITO".toList, "DEPÓSITO".toList,
   "DEPOSITO".toList, "TRANSFERÊNCIA RECEBIDA".toList]

/-- `any(indicator in description.upper() for indicator in debit_indicators)`. -/
def debitMatch (desc : List Char) : Bool :=
  debit_indicators.any (fun ind => isSubstr ind (desc.map toUpperPT))

/-- `any(indicator in description.upper() for indicator in credit_indicators)`. -/
def creditMatch (desc : List Char) : Bool :=
  credit_indicators.any (fun ind => isSubstr ind (desc.map toUpperPT))

/-- Transaction type field. -/
inductive TType
  | DEBIT
  | CREDIT
  | UNKNOWN
deriving DecidableEq

/-- Classification step of the text parser: the debit branch first, forcing a
non-positive amount; otherwise the credit branch, forcing a non-negative
amount; otherwise UNKNOWN with the amount untouched. -/
def classify (desc : List Char) (amount : ℚ) : TType × ℚ :=
  if debitMatch desc then
    (TType.DEBIT, if amount > 0 then -amount else amount)
  else if creditMatch desc then
    (TType.CREDIT, if amount < 0 then |amount| else amount)
  else
    (TType.UNKNOWN, amount)

/-! ## Per-line processing of the text parser -/

/-- A transaction record as first appended to the `transactions` list, with the
date still a raw matched string. -/
structure RawRec where
  dateStr : List Char
  description : List Char
  amount : ℚ
  ttype : TType
deriving DecidableEq

/-- Build the record for a line, given the date string assigned to it: emits
nothing when no amount pattern yields a parseable amount. -/
def mkRec (dateStr line : List Char) : Option RawRec :=
  match extractAmount line with
  | none => none
  | some a =>
    let desc := extractDescription line
    let ta := classify desc a
    some ⟨dateStr, desc, ta.2, ta.1⟩

/-- One iteration of the per-line loop: carried-date state in, line in; new
carried-date state and optional emitted record out.  Blank lines are skipped;
a detected date replaces the carried date; a line with no date match reuses the
carried date or, with none available, is skipped. -/
def processLine (cur : Option (List Char)) (line : List Char) :
    Option (List Char) × Option RawRec :=
  if (stripWs line).isEmpty then (cur, none)
  else
    match findDate line with
    | some d => (some d, mkRec d line)
    | none =>
      match cur with
      | some d => (cur, mkRec d line)
      | none => (cur, none)

/-- The per-line loop over all lines, threading the carried-date state. -/
def collectRawGo (cur : Option (List Char)) : List (List Char) → List RawRec
  | [] => []
  | line :: rest =>
    let step := processLine cur line
    match step.2 with
    | some r => r :: collectRawGo step.1 rest
    | none => collectRawGo step.1 rest

/-- All raw records collected from a text stream (split on line breaks, carried
date initially absent). -/
def collectRaw (text : List Char) : List RawRec :=
  collectRawGo none (text.splitOn '\n')

/-! ## Date conversion and sorting -/

/-- Gregorian leap-year test. -/
def isLeap (y : Nat) : Bool := (y % 4 = 0 && y % 100 ≠ 0) || y % 400 = 0

/-- Days in a month. -/
def daysInMonth (y m : Nat) : Nat :=
  if m = 2 then (if isLeap y then 29 else 28)
  else if m = 4 || m = 6 || m = 9 || m = 11 then 30
  else 31

/-- Model of `pd.to_datetime(s, format='%d/%m/%Y', errors='coerce')` on one
entry: exactly the `DD/MM/YYYY` shape with a valid calendar date; anything
else becomes the unparsed marker `none` (NaT).  A date is encoded as the
natural number `y * 10000 + m * 100 + d`, which is order-isomorphic to
calendar order. -/
def toDateDMY (s : List Char) : Option Nat :=
  match s with
  | [d1, d2, '/', m1, m2, '/', y1, y2, y3, y4] =>
    if isDigit d1 && isDigit d2 && isDigit m1 && isDigit m2 &&
       isDigit y1 && isDigit y2 && isDigit y3 && isDigit y4 then
      let d := digitsToNat [d1, d2]
      let m := digitsToNat [m1, m2]
      let y := digitsToNat [y1, y2, y3, y4]
      if 1 ≤ m && m ≤ 12 && 1 ≤ d && d ≤ daysInMonth y m then
        some (y * 10000 + m * 100 + d)
      else none
    else none
  | _ => none

/-- Date order used by `sort_values('date')`: ascending on parsed dates, with
the unparsed marker (NaT) placed after every parsed date. -/
def dateLe (a b : Option Nat) : Bool :=
  match a, b with
  | none, none => true
  | none, some _ => false
  | some _, none => true
  | some x, some y => x ≤ y

/-- A transaction record of the canonical table.  `amount` is `none` for the
missing-amount marker (NaN); `sourceFile` is set only by the batch
aggregator. -/
structure Transaction where
  date : Option Nat
  description : List Char
  amount : Option ℚ
  ttype : TType
  sourceFile : Option (List Char) := none
deriving DecidableEq

/-- Record order used by `sort_values('date')`. -/
def recLe (a b : Transaction) : Bool := dateLe a.date b.date

/-- `df.sort_values('date')`: sort ascending by date, NaT last. -/
def sortByDate (ts : List Transaction) : List Transaction :=
  ts.mergeSort recLe

/-- Final conversion of a raw record: the raw date string is parsed against the
fixed `%d/%m/%Y` format, unparseable strings becoming the unparsed marker. -/
def finalizeRec (r : RawRec) : Transaction :=
  ⟨toDateDMY r.dateStr, r.description, some r.amount, r.ttype, none⟩

/-- `_parse_text_content`: collect records line by line, then (for a non-empty
collection) convert dates and sort by date. -/
def parse_text_content (text : List Char) : List Transaction :=
  let recs := collectRaw text
  if recs.isEmpty then []
  else sortByDate (recs.map finalizeRec)

/-! ## Tabular standardizer -/

/-- Error taxonomy of the processor, as raised exceptions. -/
inductive ProcError
  | notFound
  | unsupportedFormat
  | extractionFailure
  | missingColumns
  | csvEncodingExhausted
  | noDirectorySpecified
  | otherError
deriving DecidableEq

/-- A raw table: column names in left-to-right order, and rows of cells (one
cell per column, as text). -/
structure RawFrame where
  cols : List (List Char)
  rows : List (List (List Char))
deriving DecidableEq

/-- Synonym tokens for the date field. -/
def date_terms : List (List Char) := ["date".toList, "data".toList, "dia".toList]

/-- Synonym tokens for the amount field. -/
def amount_terms : List (List Char) :=
  ["amount".toList, "valor".toList, "montante".toList, "quantia".toList]

/-- Synonym tokens for the description field. -/
def desc_terms : List (List Char) :=
  ["desc".toList, "texto".toList, "detalhe".toList]

/-- `any(term in col.lower() for term in terms)`: a column name matches a field
when its lowercased name CONTAINS some synonym token as a substring. -/
def colMatches (terms : List (List Char)) (col : List Char) : Bool :=
  terms.any (fun t => isSubstr t (col.map toLowerPT))

/-- `[col for col in df.columns if any(term in col.lower() for term in terms)]`. -/
def matchingCols (terms : List (List Char)) (cols : List (List Char)) :
    List (List Char) :=
  cols.filter (colMatches terms)

/-- Cell of a row at a column index ([] when the row is ragged). -/
def cellAt (row : List (List Char)) (i : Nat) : List Char := (row.get? i).getD []

/-- Model of `pd.to_datetime(s, errors='coerce')` with no explicit format: the
library infers among many formats; the model accepts the two formats arising
in this development (`DD/MM/YYYY` and `YYYY-MM-DD`), everything else becoming
the unparsed marker `none` (NaT). -/
def toDateFlex (s : List Char) : Option Nat :=
  match toDateDMY s with
  | some n => some n
  | none =>
    match s with
    | [y1, y2, y3, y4, '-', m1, m2, '-', d1, d2] =>
      if isDigit y1 && isDigit y2 && isDigit y3 && isDigit y4 &&
         isDigit m1 && isDigit m2 && isDigit d1 && isDigit d2 then
        let y := digitsToNat [y1, y2, y3, y4]
        let m := digitsToNat [m1, m2]
        let d := digitsToNat [d1, d2]
        if 1 ≤ m && m ≤ 12 && 1 ≤ d && d ≤ daysInMonth y m then
          some (y * 10000 + m * 100 + d)
        else none
      else none
    | _ => none

/-- `pd.to_numeric(cell.astype(str).str.replace(',', '.'), errors='coerce')`
on one cell: every comma becomes a point, then numeric coercion; `none` is the
missing-amount marker (NaN). -/
def toNumericCell (s : List Char) : Option ℚ :=
  parseFloat (s.map (fun c => if c = ',' then '.' else c))

/-- Type derived from the sign of the standardized amount:
`'CREDIT' if x > 0 else 'DEBIT'`; the comparison with the missing-amount
marker (NaN) is false, so such rows fall to DEBIT. -/
def typeFromAmount (amt : Option ℚ) : TType :=
  if (match amt with | some a => decide (a > 0) | none => false) then
    TType.CREDIT
  else TType.DEBIT

/-- One standardized row, given the indices of the resolved date, amount and
description columns: normalized date, raw description text, coerced amount,
and the type derived from the amount sign. -/
def stdRow (di ai xi : Nat) (row : List (List Char)) : Transaction :=
  let amt := toNumericCell (cellAt row ai)
  { date := toDateFlex (cellAt row di)
    description := cellAt row xi
    amount := amt
    ttype := typeFromAmount amt
    sourceFile := none }

/-- `_standardize_dataframe`: resolve the three canonical columns (first
matching column per field, else raise), normalize dates and amounts, derive
the type from the amount sign, project and sort by date. -/
def standardize_dataframe (f : RawFrame) : Except ProcError (List Transaction) :=
  let dcols := matchingCols date_terms f.cols
  let acols := matchingCols amount_terms f.cols
  let xcols := matchingCols desc_terms f.cols
  match dcols.head?, acols.head?, xcols.head? with
  | some dc, some ac, some xc =>
    let di := (f.cols.findIdx? (fun c => c = dc)).getD 0
    let ai := (f.cols.findIdx? (fun c => c = ac)).getD 0
    let xi := (f.cols.findIdx? (fun c => c = xc)).getD 0
    .ok (sortByDate (f.rows.map (stdRow di ai xi)))
  | _, _, _ => .error ProcError.missingColumns

/-! ## Delimited-text (.csv) processing -/

/-- Outcome of one `pd.read_csv` attempt under a candidate encoding. -/
inductive ReadOutcome
  | decodeError
  | readError
  | table (f : RawFrame)

/-- `_process_csv`, shallowly embedded over the per-encoding read outcomes (in
the order of the encoding candidate list): a decoding error continues; any
other error inside the attempt — including the missing-columns failure raised
by the standardizer — is logged and continues; a successful standardization
returns; an exhausted candidate list raises the generic could-not-process
error. -/
def process_csv : List ReadOutcome → Except ProcError (List Transaction)
  | [] => .error ProcError.csvEncodingExhausted
  | o :: rest =>
    match o with
    | .decodeError => process_csv rest
    | .readError => process_csv rest
    | .table f =>
      match standardize_dataframe f with
      | .ok ts => .ok ts
      | .error _ => process_csv rest

/-! ## Directory aggregator -/

/-- One directory entry, with the lowercased name suffix and the outcome of
`process_statement` on that file (the per-file work is itself effectful; the
aggregator is embedded over these outcomes). -/
structure DirFile where
  name : List Char
  ext : List Char
  outcome : Except ProcError (List Transaction)

/-- The supported extension set. -/
def supported_extensions : List (List Char) :=
  [".pdf".toList, ".csv".toList, ".xlsx".toList, ".xls".toList]

/-- `df['source_file'] = file_path.name` on one record. -/
def addSource (nm : List Char) (t : Transaction) : Transaction :=
  { t with sourceFile := some nm }

/-- One step of the accumulation loop of `process_directory`: unsupported
extensions are skipped; a per-file error is caught (logged) and contributes
nothing; an empty per-file result contributes nothing; a non-empty result is
tagged with its source file and appended. -/
def stepFile (acc : List (List Transaction)) (f : DirFile) :
    List (List Transaction) :=
  if supported_extensions.contains f.ext then
    match f.outcome with
    | .ok ts => if ts.isEmpty then acc else acc ++ [ts.map (addSource f.name)]
    | .error _ => acc
  else acc

/-- The accumulation loop of `process_directory` over the directory entries. -/
def accumulate (files : List DirFile) : List (List Transaction) :=
  files.foldl stepFile []

/-- `process_directory`: the explicit directory argument, else the configured
input directory, else raise; then accumulate per-file contributions, returning
an empty table when there are none and the concatenation re-sorted by date
otherwise. -/
def process_directory (input_dir directory : Option (List DirFile)) :
    Except ProcError (List Transaction) :=
  match directory.orElse (fun _ => input_dir) with
  | none => .error ProcError.noDirectorySpecified
  | some files =>
    let contribs := accumulate files
    if contribs.isEmpty then .ok []
    else .ok (sortByDate contribs.flatten)

/-! ## Helper lemmas -/

lemma isDigit_false_of_isWs {c : Char} (h : isWs c = true) : isDigit c = false := by
  unfold isWs at h
  simp only [Bool.or_eq_true, decide_eq_true_eq] at h
  rcases h with ((((h | h) | h) | h) | h) | h <;> subst h <;> decide

lemma all_ws_of_stripWs_nil {cs : List Char} (h : stripWs cs = []) :
    ∀ c ∈ cs, isWs c = true := by
  unfold stripWs at h
  rw [List.reverse_eq_nil_iff, List.dropWhile_eq_nil_iff] at h
  intro c hc
  have hsplit := List.takeWhile_append_dropWhile isWs cs
  rw [← hsplit] at hc
  rcases List.mem_append.mp hc with hmem | hmem
  · exact List.mem_takeWhile_imp hmem
  · exact h c (List.mem_reverse.mpr hmem)

lemma matchP1At_eq_none_of_ws {cs : List Char} (hws : ∀ c ∈ cs, isWs c = true) :
    matchP1At cs = none := by
  unfold matchP1At
  split
  · next a b c d e f g h _ =>
    rw [isDigit_false_of_isWs (hws a (by simp))]
    simp
  · rfl

lemma matchP2At_eq_none_of_ws {cs : List Char} (hws : ∀ c ∈ cs, isWs c = true) :
    matchP2At cs = none := by
  unfold matchP2At
  split
  · next a b c d e f g h _ =>
    rw [isDigit_false_of_isWs (hws a (by simp))]
    simp
  · rfl

lemma matchP3At_eq_none_of_ws {cs : List Char} (hws : ∀ c ∈ cs, isWs c = true) :
    matchP3At cs = none := by
  unfold matchP3At
  split
  · next a b c d e f g h _ =>
    rw [isDigit_false_of_isWs (hws a (by simp))]
    simp
  · rfl

lemma firstMatch_eq_none_of_ws {m : List Char → Option (List Char)}
    (hm : ∀ cs : List Char, (∀ c ∈ cs, isWs c = true) → m cs = none)
    {cs : List Char} (hws : ∀ c ∈ cs, isWs c = true) :
    firstMatch m cs = none := by
  induction cs with
  | nil => rfl
  | cons c rest ih =>
    unfold firstMatch
    rw [hm _ hws]
    exact ih (fun x hx => hws x (List.mem_cons_of_mem _ hx))

lemma findDate_eq_none_of_blank {line : List Char} (h : stripWs line = []) :
    findDate line = none := by
  have hws := all_ws_of_stripWs_nil h
  unfold findDate date_patterns firstPatternMatch
  rw [firstMatch_eq_none_of_ws (fun _ h => matchP1At_eq_none_of_ws h) hws]
  unfold firstPatternMatch
  rw [firstMatch_eq_none_of_ws (fun _ h => matchP2At_eq_none_of_ws h) hws]
  unfold firstPatternMatch
  rw [firstMatch_eq_none_of_ws (fun _ h => matchP3At_eq_none_of_ws h) hws]
  rfl

lemma mkRec_dateStr {d line : List Char} {r : RawRec} (h : mkRec d line = some r) :
    r.dateStr = d := by
  unfold mkRec at h
  cases hA : extractAmount line with
  | none => rw [hA] at h; exact absurd h (by simp)
  | some a =>
    rw [hA] at h
    simp only [Option.some.injEq] at h
    rw [← h]

lemma mkRec_eq_some_iff {d line : List Char} {r : RawRec} :
    mkRec d line = some r ↔
      ∃ a, extractAmount line = some a ∧
        r = ⟨d, extractDescription line,
             (classify (extractDescription line) a).2,
             (classify (extractDescription line) a).1⟩ := by
  unfold mkRec
  cases hA : extractAmount line with
  | none => simp
  | some a => simp [eq_comm]

/-! ## Claim theorems -/

/-- C4: in the text parser, a line with no date match following a line whose
detected date was `D` is assigned date `D` (the carried state is `D` and any
record the line emits carries `D`); a line with no date match and no carried
date yields no record and leaves the state empty, whatever amounts or keywords
the line contains; and a line with detected date `D` sets the carried state to
`D`. -/
theorem claim_C4_carry_forward :
    ∀ (cur : Option (List Char)) (line D : List Char),
      (findDate line = some D → (processLine cur line).1 = some D) ∧
      (findDate line = none → cur = some D →
        (processLine cur line).1 = some D ∧
        ∀ r, (processLine cur line).2 = some r → r.dateStr = D) ∧
      (findDate line = none → cur = none →
        processLine cur line = (none, none)) := by
  intro cur line D
  by_cases hb : (stripWs line).isEmpty
  · have hfd : findDate line = none :=
      findDate_eq_none_of_blank (List.isEmpty_iff.mp hb)
    refine ⟨fun hsome => absurd (hfd.symm.trans hsome) (by simp),
            fun _ hcur => ?_, fun _ hcur => ?_⟩
    · subst hcur
      refine ⟨by simp [processLine, hb], fun r hr => ?_⟩
      simp [processLine, hb] at hr
    · subst hcur; simp [processLine, hb]
  · cases hfd : findDate line with
    | some d =>
      refine ⟨fun hsome => ?_,
              fun hnone => absurd hnone (by simp),
              fun hnone => absurd hnone (by simp)⟩
      have hd : d = D := by simpa using hsome
      subst hd
      simp [processLine, hb, hfd]
    | none =>
      refine ⟨fun hsome => absurd hsome (by simp),
              fun _ hcur => ?_, fun _ hcur => ?_⟩
      · subst hcur
        refine ⟨by simp [processLine, hb, hfd], fun r hr => ?_⟩
        simp only [processLine, hb, Bool.false_eq_true, if_false, hfd] at hr
        exact mkRec_dateStr hr
      · subst hcur; simp [processLine, hb, hfd]

/-- Witness for C4: the spec's scenario 3 — the dateless line
`PAGAMENTO SERVICO 20,00` after a line dated `03/03/2024` keeps the carried
date and its record carries that date; with no carried date the same line is
dropped entirely. -/
theorem claim_C4_witness :
    (processLine (some "03/03/2024".toList) "PAGAMENTO SERVIÇO 20,00".toList).1 =
      some "03/03/2024".toList ∧
    (∀ r, (processLine (some "03/03/2024".toList)
        "PAGAMENTO SERVIÇO 20,00".toList).2 = some r →
      r.dateStr = "03/03/2024".toList) ∧
    processLine none "PAGAMENTO SERVIÇO 20,00".toList = (none, none) := by
  have h1 := claim_C4_carry_forward (some "03/03/2024".toList)
    "PAGAMENTO SERVIÇO 20,00".toList "03/03/2024".toList
  have h2 := claim_C4_carry_forward none
    "PAGAMENTO SERVIÇO 20,00".toList "03/03/2024".toList
  have hfd : findDate "PAGAMENTO SERVIÇO 20,00".toList = none := by decide
  exact ⟨(h1.2.1 hfd rfl).1, (h1.2.1 hfd rfl).2, h2.2.2 hfd rfl⟩

lemma classify_of_debit (desc : List Char) (a : ℚ) (h : debitMatch desc = true) :
    classify desc a = (TType.DEBIT, if a > 0 then -a else a) := by
  unfold classify
  rw [h]
  simp

/-- C9: in the text parser, a record built from a line whose extracted
description matches a debit keyword is classified DEBIT with a non-positive
amount — whatever credit keywords also match — and a record classified CREDIT
can only come from a line with no debit-keyword match. -/
theorem claim_C9_debit_precedence :
    ∀ (line d : List Char) (r : RawRec), mkRec d line = some r →
      (debitMatch (extractDescription line) = true →
        r.ttype = TType.DEBIT ∧ r.amount ≤ 0) ∧
      (r.ttype = TType.CREDIT → debitMatch (extractDescription line) = false) := by
  intro line d r hmk
  obtain ⟨a, -, hr⟩ := mkRec_eq_some_iff.mp hmk
  have h1 : r.ttype = (classify (extractDescription line) a).1 := by rw [hr]
  have h2 : r.amount = (classify (extractDescription line) a).2 := by rw [hr]
  constructor
  · intro hdb
    rw [classify_of_debit _ a hdb] at h1 h2
    refine ⟨h1, ?_⟩
    rw [h2]
    dsimp only
    split_ifs with hpos
    · linarith
    · linarith
  · intro hcr
    by_contra hdb
    rw [Bool.not_eq_false] at hdb
    rw [classify_of_debit _ a hdb, hcr] at h1
    exact absurd h1 (by simp)

/-- Witness for C9: the line `01/03/2024 PAGAMENTO DEPOSITO 10,00` matches
both a debit keyword (PAGAMENTO) and a credit keyword (DEPOSITO); its record
is DEBIT with amount forced to `-10`. -/
theorem claim_C9_witness :
    creditMatch (extractDescription
      "01/03/2024 PAGAMENTO DEPOSITO 10,00".toList) = true ∧
    ∃ r, mkRec "01/03/2024".toList
        "01/03/2024 PAGAMENTO DEPOSITO 10,00".toList = some r ∧
      r.ttype = TType.DEBIT ∧ r.amount ≤ 0 := by
  refine ⟨by decide, ⟨"01/03/2024".toList, "PAGAMENTO DEPOSITO".toList,
    -10, TType.DEBIT⟩, by with_unfolding_all decide, ?_⟩
  exact (claim_C9_debit_precedence
    "01/03/2024 PAGAMENTO DEPOSITO 10,00".toList "01/03/2024".toList
    ⟨"01/03/2024".toList, "PAGAMENTO DEPOSITO".toList, -10, TType.DEBIT⟩
    (by with_unfolding_all decide)).1 (by decide)

lemma dateLe_trans {a b c : Option Nat} (h1 : dateLe a b = true)
    (h2 : dateLe b c = true) : dateLe a c = true := by
  unfold dateLe at h1 h2 ⊢
  cases a <;> cases b <;> cases c <;> simp_all
  all_goals omega

lemma dateLe_total (a b : Option Nat) : (dateLe a b || dateLe b a) = true := by
  unfold dateLe
  cases a <;> cases b <;> simp
  all_goals omega

lemma sortByDate_pairwise (ts : List Transaction) :
    (sortByDate ts).Pairwise (fun a b => recLe a b = true) := by
  unfold sortByDate
  exact @List.sorted_mergeSort Transaction recLe
    (fun a b c hab hbc => dateLe_trans hab hbc)
    (fun a b => dateLe_total a.date b.date) ts

lemma standardize_ok {f : RawFrame} {ts : List Transaction}
    (h : standardize_dataframe f = .ok ts) :
    ∃ di ai xi, ts = sortByDate (f.rows.map (stdRow di ai xi)) := by
  simp only [standardize_dataframe] at h
  split at h
  · next dc ac xc hd ha hx =>
    injection h with h
    exact ⟨_, _, _, h.symm⟩
  · exact absurd h (by simp)

lemma process_directory_ok {I D : Option (List DirFile)} {ts : List Transaction}
    (h : process_directory I D = .ok ts) :
    ts = [] ∨ ∃ files : List DirFile, ts = sortByDate (accumulate files).flatten := by
  unfold process_directory at h
  split at h
  · exact absurd h (by simp)
  · next files hfiles =>
    by_cases he : (accumulate files).isEmpty
    · rw [if_pos he] at h
      injection h with h
      exact Or.inl h.symm
    · rw [if_neg he] at h
      injection h with h
      exact Or.inr ⟨files, h.symm⟩

/-- C7: every output table — of the text parser, of the tabular standardizer
(when it succeeds), and of the batch aggregator (when it succeeds) — is
pairwise ordered by the date order `recLe`, which ranks parsed dates ascending
and places all unparsed-date rows after all parsed-date rows. -/
theorem claim_C7_sort_invariant :
    (∀ text : List Char,
      (parse_text_content text).Pairwise (fun a b => recLe a b = true)) ∧
    (∀ (f : RawFrame) (ts : List Transaction),
      standardize_dataframe f = .ok ts →
      ts.Pairwise (fun a b => recLe a b = true)) ∧
    (∀ (I D : Option (List DirFile)) (ts : List Transaction),
      process_directory I D = .ok ts →
      ts.Pairwise (fun a b => recLe a b = true)) := by
  refine ⟨fun text => ?_, fun f ts h => ?_, fun I D ts h => ?_⟩
  · simp only [parse_text_content]
    split
    · exact List.Pairwise.nil
    · exact sortByDate_pairwise _
  · obtain ⟨di, ai, xi, hts⟩ := standardize_ok h
    rw [hts]
    exact sortByDate_pairwise _
  · rcases process_directory_ok h with hts | ⟨files, hts⟩ <;> rw [hts]
    · exact List.Pairwise.nil
    · exact sortByDate_pairwise _

/-- Witness for C7: a two-line text whose second line carries the earlier
date sorts ascending; a one-row frame and a one-file directory standardize and
aggregate to sorted tables. -/
theorem claim_C7_witness :
    (parse_text_content
      "02/03/2024 COMPRA 2,00\n01/03/2024 COMPRA 1,00".toList).Pairwise
        (fun a b => recLe a b = true) ∧
    ([⟨some 20240102, "y".toList, none, TType.DEBIT, none⟩] :
        List Transaction).Pairwise (fun a b => recLe a b = true) ∧
    ([⟨some 1, [], none, TType.UNKNOWN, some "a.csv".toList⟩] :
        List Transaction).Pairwise (fun a b => recLe a b = true) := by
  refine ⟨claim_C7_sort_invariant.1 _, ?_, ?_⟩
  · exact claim_C7_sort_invariant.2.1
      ⟨["data".toList, "valor".toList, "desc".toList],
       [["2024-01-02".toList, "abc".toList, "y".toList]]⟩
      _ (by with_unfolding_all rfl)
  · exact claim_C7_sort_invariant.2.2 none
      (some [⟨"a.csv".toList, ".csv".toList,
        .ok [⟨some 1, [], none, TType.UNKNOWN, none⟩]⟩])
      _ (by with_unfolding_all rfl)

lemma classify_of_credit (desc : List Char) (a : ℚ) (hdb : debitMatch desc = false)
    (hcr : creditMatch desc = true) :
    classify desc a = (TType.CREDIT, if a < 0 then |a| else a) := by
  unfold classify
  rw [hdb, hcr]
  simp

lemma classify_of_unknown (desc : List Char) (a : ℚ) (hdb : debitMatch desc = false)
    (hcr : creditMatch desc = false) : classify desc a = (TType.UNKNOWN, a) := by
  unfold classify
  rw [hdb, hcr]
  simp

lemma classify_sign (desc : List Char) (a : ℚ) :
    ((classify desc a).1 = TType.DEBIT → (classify desc a).2 ≤ 0) ∧
    ((classify desc a).1 = TType.CREDIT → 0 ≤ (classify desc a).2) := by
  by_cases hdb : debitMatch desc = true
  · rw [classify_of_debit desc a hdb]
    refine ⟨fun _ => ?_, fun h => by simp at h⟩
    dsimp only
    split_ifs with hpos
    · linarith
    · linarith
  · rw [Bool.not_eq_true] at hdb
    by_cases hcr : creditMatch desc = true
    · rw [classify_of_credit desc a hdb hcr]
      refine ⟨fun h => by simp at h, fun _ => ?_⟩
      dsimp only
      split_ifs with hneg
      · exact abs_nonneg a
      · linarith
    · rw [Bool.not_eq_true] at hcr
      rw [classify_of_unknown desc a hdb hcr]
      exact ⟨fun h => by simp at h, fun h => by simp at h⟩

lemma mkRec_sign {d line : List Char} {r : RawRec} (h : mkRec d line = some r) :
    (r.ttype = TType.DEBIT → r.amount ≤ 0) ∧
    (r.ttype = TType.CREDIT → 0 ≤ r.amount) := by
  obtain ⟨a, -, hr⟩ := mkRec_eq_some_iff.mp h
  have h1 : r.ttype = (classify (extractDescription line) a).1 := by rw [hr]
  have h2 : r.amount = (classify (extractDescription line) a).2 := by rw [hr]
  rw [h1, h2]
  exact classify_sign (extractDescription line) a

lemma processLine_rec_from_mkRec {cur : Option (List Char)} {line : List Char}
    {r : RawRec} (h : (processLine cur line).2 = some r) :
    ∃ d, mkRec d line = some r := by
  unfold processLine at h
  by_cases hb : (stripWs line).isEmpty = true
  · rw [if_pos hb] at h
    exact absurd h (by simp)
  · rw [if_neg hb] at h
    rcases hfd : findDate line with _ | d
    · rw [hfd] at h
      rcases cur with _ | d2
      · exact absurd h (by simp)
      · exact ⟨d2, h⟩
    · rw [hfd] at h
      exact ⟨d, h⟩

lemma collectRawGo_sign :
    ∀ (lines : List (List Char)) (cur : Option (List Char)) (r : RawRec),
      r ∈ collectRawGo cur lines →
      (r.ttype = TType.DEBIT → r.amount ≤ 0) ∧
      (r.ttype = TType.CREDIT → 0 ≤ r.amount) := by
  intro lines
  induction lines with
  | nil => intro cur r h; exact absurd h (by simp [collectRawGo])
  | cons line rest ih =>
    intro cur r h
    rcases hp : (processLine cur line).2 with _ | r0
    · simp only [collectRawGo, hp] at h
      exact ih _ r h
    · simp only [collectRawGo, hp] at h
      rcases List.mem_cons.mp h with h | h
      · subst h
        obtain ⟨d, hmk⟩ := processLine_rec_from_mkRec hp
        exact mkRec_sign hmk
      · exact ih _ r h

lemma parse_text_content_mem {text : List Char} {t : Transaction}
    (h : t ∈ parse_text_content text) :
    ∃ r ∈ collectRaw text, t = finalizeRec r := by
  simp only [parse_text_content] at h
  split at h
  · exact absurd h (by simp)
  · rw [sortByDate, List.mem_mergeSort] at h
    obtain ⟨r, hr, ht⟩ := List.mem_map.mp h
    exact ⟨r, hr, ht.symm⟩

lemma typeFromAmount_some_debit {a : ℚ} (h : typeFromAmount (some a) = TType.DEBIT) :
    a ≤ 0 := by
  unfold typeFromAmount at h
  dsimp only at h
  by_cases hp : decide (a > 0) = true
  · rw [if_pos hp] at h
    exact absurd h (by simp)
  · rw [if_neg hp] at h
    rw [decide_eq_true_eq] at hp
    linarith

lemma typeFromAmount_some_credit {a : ℚ}
    (h : typeFromAmount (some a) = TType.CREDIT) : 0 ≤ a := by
  unfold typeFromAmount at h
  dsimp only at h
  by_cases hp : decide (a > 0) = true
  · rw [decide_eq_true_eq] at hp
    linarith
  · rw [if_neg hp] at h
    exact absurd h (by simp)

lemma standardize_mem {f : RawFrame} {ts : List Transaction} {t : Transaction}
    (h : standardize_dataframe f = .ok ts) (ht : t ∈ ts) :
    ∃ di ai xi row, row ∈ f.rows ∧ t = stdRow di ai xi row := by
  obtain ⟨di, ai, xi, hts⟩ := standardize_ok h
  rw [hts, sortByDate, List.mem_mergeSort] at ht
  obtain ⟨row, hrow, hteq⟩ := List.mem_map.mp ht
  exact ⟨di, ai, xi, row, hrow, hteq.symm⟩

/-- C1 (amended): every text-parser record carries a present amount obeying
the sign invariant (DEBIT non-positive, CREDIT non-negative); a standardizer
record obeys the invariant whenever its amount is present; and a standardizer
record with the missing-amount marker is always classified DEBIT. -/
theorem claim_C1_sign_invariant_amended :
    (∀ (text : List Char) (t : Transaction), t ∈ parse_text_content text →
      ∃ a, t.amount = some a ∧
        (t.ttype = TType.DEBIT → a ≤ 0) ∧ (t.ttype = TType.CREDIT → 0 ≤ a)) ∧
    (∀ (f : RawFrame) (ts : List Transaction) (t : Transaction) (a : ℚ),
      standardize_dataframe f = .ok ts → t ∈ ts → t.amount = some a →
        (t.ttype = TType.DEBIT → a ≤ 0) ∧ (t.ttype = TType.CREDIT → 0 ≤ a)) ∧
    (∀ (f : RawFrame) (ts : List Transaction) (t : Transaction),
      standardize_dataframe f = .ok ts → t ∈ ts → t.amount = none →
        t.ttype = TType.DEBIT) := by
  refine ⟨fun text t ht => ?_, fun f ts t a hok ht ha => ?_, fun f ts t hok ht ha => ?_⟩
  · obtain ⟨r, hr, hteq⟩ := parse_text_content_mem ht
    obtain ⟨hd, hc⟩ := collectRawGo_sign _ none r hr
    subst hteq
    exact ⟨r.amount, rfl, hd, hc⟩
  · obtain ⟨di, ai, xi, row, -, hteq⟩ := standardize_mem hok ht
    subst hteq
    have hamt : toNumericCell (cellAt row ai) = some a := ha
    have httype : (stdRow di ai xi row).ttype =
        typeFromAmount (toNumericCell (cellAt row ai)) := rfl
    rw [hamt] at httype
    constructor
    · intro hd
      exact typeFromAmount_some_debit (httype ▸ hd)
    · intro hc
      exact typeFromAmount_some_credit (httype ▸ hc)
  · obtain ⟨di, ai, xi, row, -, hteq⟩ := standardize_mem hok ht
    subst hteq
    have hamt : toNumericCell (cellAt row ai) = none := ha
    have httype : (stdRow di ai xi row).ttype =
        typeFromAmount (toNumericCell (cellAt row ai)) := rfl
    rw [hamt] at httype
    exact httype

/-- Counterexample for C1: on a table whose amount entry does not coerce, the
standardizer emits a record with type DEBIT and NO numeric amount at all (the
missing-amount marker), so the DEBIT half of the sign invariant fails for the
tabular standardizer. -/
theorem claim_C1_counterexample :
    ¬ (∀ (f : RawFrame) (ts : List Transaction) (t : Transaction),
        standardize_dataframe f = .ok ts → t ∈ ts → t.ttype = TType.DEBIT →
        ∃ a, t.amount = some a ∧ a ≤ 0) := by
  intro hclaim
  have h := hclaim
    ⟨["data".toList, "valor".toList, "desc".toList],
     [["01/01/2024".toList, "abc".toList, "x".toList]]⟩
    [⟨some 20240101, "x".toList, none, TType.DEBIT, none⟩]
    ⟨some 20240101, "x".toList, none, TType.DEBIT, none⟩
    (by with_unfolding_all rfl) (by simp) rfl
  obtain ⟨a, ha, -⟩ := h
  exact absurd ha (by simp)

set_option maxRecDepth 2000 in
/-- Witness for C1 (amended): a parsed line with a debit keyword yields a DEBIT
record with amount `-1.23 ≤ 0`; a numeric tabular row with amount `-5` is DEBIT
with `-5 ≤ 0`; a non-numeric tabular row yields a DEBIT record with no amount. -/
theorem claim_C1_witness :
    (∃ a, (⟨some 20240301, "COMPRA".toList,
        some (-1.23 : ℚ), TType.DEBIT, none⟩ : Transaction).amount = some a ∧
        a ≤ 0) ∧
    (-5 : ℚ) ≤ 0 ∧
    (⟨some 20240101, "x".toList, none, TType.DEBIT, none⟩ :
      Transaction).ttype = TType.DEBIT := by
  refine ⟨?_, ?_, ?_⟩
  · have hpt : parse_text_content "01/03/2024 COMPRA 1,23".toList =
        [⟨some 20240301, "COMPRA".toList, some (-1.23 : ℚ), TType.DEBIT, none⟩] := by
      with_unfolding_all rfl
    obtain ⟨a, ha, hd, -⟩ := claim_C1_sign_invariant_amended.1
      "01/03/2024 COMPRA 1,23".toList
      ⟨some 20240301, "COMPRA".toList, some (-1.23 : ℚ), TType.DEBIT, none⟩
      (by rw [hpt]; exact List.mem_singleton_self _)
    exact ⟨a, ha, hd rfl⟩
  · exact (claim_C1_sign_invariant_amended.2.1
      ⟨["data".toList, "valor".toList, "desc".toList],
       [["01/01/2024".toList, "-5,00".toList, "x".toList]]⟩
      [⟨some 20240101, "x".toList, some (-5 : ℚ), TType.DEBIT, none⟩]
      ⟨some 20240101, "x".toList, some (-5 : ℚ), TType.DEBIT, none⟩
      (-5 : ℚ) (by with_unfolding_all rfl) (by simp) rfl).1 rfl
  · exact claim_C1_sign_invariant_amended.2.2
      ⟨["data".toList, "valor".toList, "desc".toList],
       [["01/01/2024".toList, "abc".toList, "x".toList]]⟩
      [⟨some 20240101, "x".toList, none, TType.DEBIT, none⟩]
      ⟨some 20240101, "x".toList, none, TType.DEBIT, none⟩
      (by with_unfolding_all rfl) (by simp) rfl

/-- C5 (amended): the tabular standardizer drops no row — the output has
exactly one record per input row — and a row whose amount entry does not
coerce is retained with the missing-amount marker and classified DEBIT. -/
theorem claim_C5_unparseable_amount_rows_amended :
    ∀ (f : RawFrame) (ts : List Transaction),
      standardize_dataframe f = .ok ts →
      ts.length = f.rows.length ∧
      ∀ t ∈ ts, t.amount = none → t.ttype = TType.DEBIT := by
  intro f ts hok
  obtain ⟨di, ai, xi, hts⟩ := standardize_ok hok
  constructor
  · rw [hts, sortByDate, List.length_mergeSort, List.length_map]
  · intro t ht ha
    obtain ⟨di2, ai2, xi2, row, -, hteq⟩ := standardize_mem hok ht
    subst hteq
    have httype : (stdRow di2 ai2 xi2 row).ttype =
        typeFromAmount (toNumericCell (cellAt row ai2)) := rfl
    have hamt : toNumericCell (cellAt row ai2) = none := ha
    rw [hamt] at httype
    exact httype

/-- Counterexample for C5: a row whose amount entry `abc` does not coerce is
NOT dropped — it appears in the standardizer's output (with the missing-amount
marker and type DEBIT). -/
theorem claim_C5_counterexample :
    ¬ (∀ (f : RawFrame) (ts : List Transaction),
        standardize_dataframe f = .ok ts →
        ∀ t ∈ ts, t.amount ≠ none) := by
  intro hclaim
  exact hclaim
    ⟨["data".toList, "valor".toList, "desc".toList],
     [["01/01/2024".toList, "abc".toList, "x".toList]]⟩
    [⟨some 20240101, "x".toList, none, TType.DEBIT, none⟩]
    (by with_unfolding_all rfl)
    ⟨some 20240101, "x".toList, none, TType.DEBIT, none⟩
    (by simp) rfl

/-- Witness for C5 (amended): on a one-row table whose amount entry is `abc`,
the output keeps its single row, and that row is DEBIT. -/
theorem claim_C5_witness :
    ([(⟨some 20240101, "x".toList, none, TType.DEBIT, none⟩ : Transaction)].length
      = [["01/01/2024".toList, "abc".toList, "x".toList]].length) ∧
    (⟨some 20240101, "x".toList, none, TType.DEBIT, none⟩ :
      Transaction).ttype = TType.DEBIT := by
  have h := claim_C5_unparseable_amount_rows_amended
    ⟨["data".toList, "valor".toList, "desc".toList],
     [["01/01/2024".toList, "abc".toList, "x".toList]]⟩
    [⟨some 20240101, "x".toList, none, TType.DEBIT, none⟩]
    (by with_unfolding_all rfl)
  exact ⟨h.1, h.2 _ (by simp) rfl⟩

lemma stepFile_error {acc : List (List Transaction)} {f : DirFile}
    {e : ProcError} (h : f.outcome = .error e) : stepFile acc f = acc := by
  simp [stepFile, h]

lemma process_directory_some (I : Option (List DirFile)) (files : List DirFile) :
    process_directory I (some files) =
      if (accumulate files).isEmpty then .ok []
      else .ok (sortByDate (accumulate files).flatten) := rfl

/-- C3: the directory aggregator is insensitive to a file whose processing
raised any error (the file is a zero contribution); an error result of the
batch call is exactly NoDirectorySpecified with no directory available; and
when the accumulation is empty the batch call returns the empty table. -/
theorem claim_C3_batch_fault_isolation :
    (∀ (I : Option (List DirFile)) (l1 l2 : List DirFile) (f : DirFile)
        (e : ProcError), f.outcome = .error e →
      process_directory I (some (l1 ++ f :: l2)) =
        process_directory I (some (l1 ++ l2))) ∧
    (∀ (I D : Option (List DirFile)) (e : ProcError),
      process_directory I D = .error e →
      e = ProcError.noDirectorySpecified ∧ D.orElse (fun _ => I) = none) ∧
    (∀ (I : Option (List DirFile)) (files : List DirFile),
      accumulate files = [] → process_directory I (some files) = .ok []) := by
  refine ⟨fun I l1 l2 f e hf => ?_, fun I D e h => ?_, fun I files hacc => ?_⟩
  · have hacc : accumulate (l1 ++ f :: l2) = accumulate (l1 ++ l2) := by
      unfold accumulate
      rw [List.foldl_append, List.foldl_append, List.foldl_cons, stepFile_error hf]
    rw [process_directory_some, process_directory_some, hacc]
  · unfold process_directory at h
    rcases hD : D.orElse (fun _ => I) with _ | files
    · rw [hD] at h
      simp only [Except.error.injEq] at h
      exact ⟨h.symm, rfl⟩
    · rw [hD] at h
      dsimp only at h
      split_ifs at h
  · rw [process_directory_some, hacc]
    rfl

/-- Witness for C3: a directory holding a single file whose processing failed
aggregates identically to the empty directory and returns the empty table. -/
theorem claim_C3_witness :
    process_directory none (some [⟨"a.pdf".toList, ".pdf".toList,
        .error ProcError.extractionFailure⟩]) =
      process_directory none (some []) ∧
    process_directory none (some [⟨"a.pdf".toList, ".pdf".toList,
        .error ProcError.extractionFailure⟩]) = .ok [] := by
  refine ⟨claim_C3_batch_fault_isolation.1 none [] []
    ⟨"a.pdf".toList, ".pdf".toList, .error ProcError.extractionFailure⟩
    ProcError.extractionFailure rfl, ?_⟩
  exact claim_C3_batch_fault_isolation.2.2 none
    [⟨"a.pdf".toList, ".pdf".toList, .error ProcError.extractionFailure⟩] rfl

/-- Counterexample for C6: a delimited-text input that decodes under every
candidate encoding but lacks a date column makes the standardizer raise
MissingColumns inside the loop, yet the single-document CSV call surfaces the
generic could-not-process error, not MissingColumns. -/
theorem claim_C6_counterexample :
    process_csv [ReadOutcome.table ⟨["foo".toList, "valor".toList, "desc".toList], []⟩,
                 ReadOutcome.table ⟨["foo".toList, "valor".toList, "desc".toList], []⟩,
                 ReadOutcome.table ⟨["foo".toList, "valor".toList, "desc".toList], []⟩]
      = .error ProcError.csvEncodingExhausted ∧
    standardize_dataframe ⟨["foo".toList, "valor".toList, "desc".toList], []⟩
      = .error ProcError.missingColumns ∧
    process_csv [ReadOutcome.table ⟨["foo".toList, "valor".toList, "desc".toList], []⟩,
                 ReadOutcome.table ⟨["foo".toList, "valor".toList, "desc".toList], []⟩,
                 ReadOutcome.table ⟨["foo".toList, "valor".toList, "desc".toList], []⟩]
      ≠ .error ProcError.missingColumns := by
  refine ⟨rfl, rfl, fun h => ?_⟩
  have h2 := (show process_csv
      [ReadOutcome.table ⟨["foo".toList, "valor".toList, "desc".toList], []⟩,
       ReadOutcome.table ⟨["foo".toList, "valor".toList, "desc".toList], []⟩,
       ReadOutcome.table ⟨["foo".toList, "valor".toList, "desc".toList], []⟩]
      = Except.error ProcError.csvEncodingExhausted from rfl).symm.trans h
  simp at h2

/-- C6 (amended): any failure inside a CSV read attempt — including the
standardizer's MissingColumns — is caught and the loop moves to the next
encoding, so the only error the CSV entry point ever raises is the generic
could-not-process error after exhausting all candidates. -/
theorem claim_C6_missing_columns_swallowed_amended :
    (∀ (attempts : List ReadOutcome) (e : ProcError),
      process_csv attempts = .error e → e = ProcError.csvEncodingExhausted) ∧
    (∀ (f : RawFrame) (rest : List ReadOutcome) (e : ProcError),
      standardize_dataframe f = .error e →
      process_csv (ReadOutcome.table f :: rest) = process_csv rest) := by
  constructor
  · intro attempts
    induction attempts with
    | nil =>
      intro e h
      unfold process_csv at h
      simp only [Except.error.injEq] at h
      exact h.symm
    | cons o rest ih =>
      intro e h
      unfold process_csv at h
      cases o with
      | decodeError => exact ih e h
      | readError => exact ih e h
      | table f =>
        dsimp only at h
        rcases hs : standardize_dataframe f with e2 | ts
        · rw [hs] at h
          dsimp only at h
          exact ih e h
        · rw [hs] at h
          dsimp only at h
          exact absurd h (by simp)
  · intro f rest e hf
    conv_lhs => rw [process_csv]
    rw [hf]

/-- Witness for C6 (amended): a one-attempt list whose table lacks a date
column behaves like an empty attempt list, and the empty attempt list's error
is the generic one. -/
theorem claim_C6_witness :
    process_csv [ReadOutcome.table
        ⟨["foo".toList, "valor".toList, "desc".toList], []⟩] = process_csv [] ∧
    ProcError.csvEncodingExhausted = ProcError.csvEncodingExhausted := by
  refine ⟨claim_C6_missing_columns_swallowed_amended.2
    ⟨["foo".toList, "valor".toList, "desc".toList], []⟩ []
    ProcError.missingColumns rfl, ?_⟩
  exact claim_C6_missing_columns_swallowed_amended.1 []
    ProcError.csvEncodingExhausted rfl

/-- Counterexample for C2: on a line containing `1.234,56`, the first amount
pattern matches the prefix `1.23`, whose normalization (dots removed, comma to
point) is `123` — not `1234.56` as claimed. -/
theorem claim_C2_counterexample :
    extractAmount "1.234,56".toList = some 123 ∧
    extractAmount "1.234,56".toList ≠ some (1234.56 : ℚ) := by
  constructor
  · with_unfolding_all rfl
  · intro h
    have h2 := (show extractAmount "1.234,56".toList = some (123 : ℚ) by
      with_unfolding_all rfl).symm.trans h
    simp only [Option.some.injEq] at h2
    norm_num at h2

/-- C2 (amended): under the fixed precedence the amount extracted from
`1.234,56` is `123` (the first pattern wins with the substring `1.23`, and the
thousands-separator pattern is never consulted), while `-12,34` yields `-12.34`
and `€ 45,00` yields `45.00` as claimed. -/
theorem claim_C2_amount_normalization_amended :
    extractAmount "1.234,56".toList = some 123 ∧
    firstMatch matchA1At "1.234,56".toList = some "1.23".toList ∧
    extractAmount "-12,34".toList = some (-12.34 : ℚ) ∧
    extractAmount "€ 45,00".toList = some 45 := by
  exact ⟨by with_unfolding_all rfl, by decide,
    by with_unfolding_all rfl, by with_unfolding_all rfl⟩

/-- Counterexample for C8: the column name `Updated` is selected as the date
column — its lowercased form CONTAINS the synonym `date` — although it is not
a MEMBER of the date synonym set, and the table standardizes successfully
where the membership reading predicts a MissingColumns failure. -/
theorem claim_C8_counterexample :
    matchingCols date_terms
      ["Updated".toList, "valor".toList, "desc".toList] = ["Updated".toList] ∧
    ¬ ("Updated".toList.map toLowerPT ∈ date_terms) ∧
    ∃ ts, standardize_dataframe
      ⟨["Updated".toList, "valor".toList, "desc".toList], []⟩ = .ok ts := by
  exact ⟨by decide, by decide, [], by with_unfolding_all rfl⟩

/-- C8 (amended): a column is selected for a field iff its lowercased name
contains some synonym of that field as a substring, the selected column being
the first matching one in left-to-right order (`find?`); matching is invariant
under any case change of the header; and a table with Portuguese reordered
headers standardizes identically to the English one. -/
theorem claim_C8_column_resolution_amended :
    (∀ terms cols : List (List Char),
      (matchingCols terms cols).head? = cols.find? (colMatches terms)) ∧
    (∀ (terms : List (List Char)) (c : List Char) (f : Char → Char),
      (∀ ch, toLowerPT (f ch) = toLowerPT ch) →
      colMatches terms (c.map f) = colMatches terms c) ∧
    standardize_dataframe
      ⟨["Descrição".toList, "Data".toList, "Valor".toList],
       [["mercado".toList, "05/02/2024".toList, "-7,25".toList]]⟩ =
    standardize_dataframe
      ⟨["date".toList, "amount".toList, "description".toList],
       [["05/02/2024".toList, "-7,25".toList, "mercado".toList]]⟩ := by
  refine ⟨fun terms cols => ?_, fun terms c f hf => ?_, by with_unfolding_all rfl⟩
  · induction cols with
    | nil => rfl
    | cons c rest ih =>
      unfold matchingCols at ih ⊢
      rw [List.filter_cons, List.find?_cons]
      by_cases h : colMatches terms c = true
      · simp [h]
      · rw [Bool.not_eq_true] at h
        simp [h, ih]
  · unfold colMatches
    rw [List.map_map]
    have hmap : List.map (toLowerPT ∘ f) c = List.map toLowerPT c :=
      List.map_congr_left (fun a _ => hf a)
    rw [hmap]

/-- Witness for C8 (amended): case-change invariance applied with the identity
casing at the header `Data`. -/
theorem claim_C8_witness :
    colMatches date_terms ("Data".toList.map (fun c => c)) =
      colMatches date_terms "Data".toList :=
  claim_C8_column_resolution_amended.2.1 date_terms "Data".toList
    (fun c => c) (fun _ => rfl)

lemma toDateDMY_of_matchP2 {s m : List Char} (h : matchP2At s = some m) :
    toDateDMY m = none := by
  unfold matchP2At at h
  split at h
  · split_ifs at h with hg
    simp only [Option.some.injEq] at h
    rw [← h]
    rfl
  · exact absurd h (by simp)

lemma toDateDMY_of_matchP3 {s m : List Char} (h : matchP3At s = some m) :
    toDateDMY m = none := by
  unfold matchP3At at h
  split at h
  · next a b c d e f g h8 tl =>
    split_ifs at h with hg
    simp only [Option.some.injEq] at h
    simp only [Bool.and_eq_true] at hg
    obtain ⟨⟨⟨⟨⟨⟨⟨ha, hb⟩, hc⟩, hd⟩, he⟩, hf2⟩, hg2⟩, hh⟩ := hg
    rw [← h]
    by_cases hcs : c = '/'
    · rw [hcs] at hc
      exact absurd hc (by decide)
    · unfold toDateDMY
      split
      · next heq =>
        simp only [List.cons.injEq] at heq
        exact absurd heq.2.2.1 hcs
      · rfl
  · exact absurd h (by simp)

/-- C10: a text-parser record whose raw date string is a full match of the
`DD-MM-YYYY` or `YYYY-MM-DD` date pattern converts to the unparsed-date marker
in the final table, because the final conversion accepts only the
day/month/year slash format. -/
theorem claim_C10_dash_dates_unparsed :
    ∀ (text : List Char) (r : RawRec), r ∈ collectRaw text →
      ((∃ s, matchP2At s = some r.dateStr) ∨ (∃ s, matchP3At s = some r.dateStr)) →
      (finalizeRec r).date = none := by
  intro text r hmem hshape
  rcases hshape with ⟨s, hs⟩ | ⟨s, hs⟩
  · exact toDateDMY_of_matchP2 hs
  · exact toDateDMY_of_matchP3 hs

set_option maxRecDepth 2000 in
/-- Witness for C10: the line `01-03-2024 COMPRA 12,34` produces a record with
raw date `01-03-2024` (a full match of the second date pattern) whose final
date is the unparsed marker. -/
theorem claim_C10_witness :
    (finalizeRec ⟨"01-03-2024".toList, "COMPRA".toList,
      -12.34, TType.DEBIT⟩).date = none := by
  apply claim_C10_dash_dates_unparsed "01-03-2024 COMPRA 12,34".toList
  · have hc : collectRaw "01-03-2024 COMPRA 12,34".toList =
        [⟨"01-03-2024".toList, "COMPRA".toList, -12.34, TType.DEBIT⟩] := by
      with_unfolding_all rfl
    rw [hc]
    exact List.mem_singleton_self _
  · exact Or.inl ⟨"01-03-2024".toList, by decide⟩

end BankStatement
